import Mathlib

/-!
Verification of the InsightFlow RSS pipeline (ADEMSU/insight-flow-rss).

This file shallowly embeds the pure decision logic of the pipeline and
settles the claims C1-C10 about it.  Each embedded definition is a direct
translation of the corresponding Python function; external numeric
libraries (the sklearn TF-IDF vectorizer and cosine similarity) are
abstracted as explicit function parameters (`counts`, `sim`), and the
database session / LLM transport are replaced by explicit state passing
(`store`, oracle functions) and a commit-success flag.
-/

namespace InsightFlow

set_option maxRecDepth 4000

/-- Database row model `Text` of `src/db_manager.py` restricted to the
columns the claims are about.  `relevance` is three-valued
(`none` = unchecked), `category`/`subcategory` are `none` until
classified, timestamps are integers (minutes). -/
structure Article where
  post_id : String
  title : String
  content : String
  published_on : Int
  relevance : Option Bool
  relevance_score : ℚ
  relevance_checked_at : Option Int
  category : Option String
  subcategory : Option String
  classification_confidence : ℚ
  classified_at : Option Int
deriving DecidableEq, Repr

/-- In-memory `Post` object of `src/post.py` restricted to the fields the
dedup engine reads.  Pythonic `None` text fields are modelled as `""`
(the code always reads them as `post.title or ""`). -/
structure Post where
  post_id : String
  title : String
  content : String
  simhash : String
  relevance_score : Option ℚ
deriving DecidableEq, Repr

/-! ## Claim C4: the daily selection window (`src/data_manager.py`, `get_msk_date_range`)

Instants are modelled as whole minutes on the MSK wall clock (an `Int`);
`day = now / 1440` (floor) and `hour = (now % 1440) / 60` recover the
datetime components, matching Python's `datetime.replace` arithmetic for
any minute-aligned `msk_now`.  `astimezone(UTC)` keeps the instant and
shifts the wall-clock reading by the fixed MSK offset of +3 h = 180 min
(Europe/Moscow has no DST). -/

/-- `get_msk_date_range` of `src/data_manager.py`: end of window is today
08:00 MSK (or yesterday 08:00 MSK if invoked before 08:00), start is
24 h earlier; both are returned converted to UTC. -/
def get_msk_date_range (mskNow : Int) : Int × Int :=
  let day := mskNow / 1440
  let hour := (mskNow % 1440) / 60
  let dateTo0 := 1440 * day + 480
  let dateTo := if hour < 8 then dateTo0 - 1440 else dateTo0
  let dateFrom := dateTo - 1440
  (dateFrom - 180, dateTo - 180)

/-- The window claimed by the spec: [yesterday 09:01 MSK, today 09:00 MSK], in UTC. -/
def claimed_window (mskNow : Int) : Int × Int :=
  let day := mskNow / 1440
  ((1440 * (day - 1) + 541) - 180, (1440 * day + 540) - 180)

/-- C4 counterexample: at 10:00 MSK on day 0 the code computes the window
[yesterday 08:00 MSK, today 08:00 MSK] (in UTC), not the claimed
[yesterday 09:01 MSK, today 09:00 MSK]. -/
theorem C4_counterexample :
    get_msk_date_range 600 = (-1140, 300) ∧
    claimed_window 600 = (-1079, 360) ∧
    get_msk_date_range 600 ≠ claimed_window 600 := by
  decide

/-- C4 amended: the window computed by `get_msk_date_range` always ends at
the most recent 08:00 MSK boundary not later than `now`, spans exactly
24 hours, and is reported in UTC (the 180-minute MSK offset subtracted
from both endpoints). -/
theorem C4_amended (mskNow : Int) :
    (get_msk_date_range mskNow).2 - (get_msk_date_range mskNow).1 = 1440 ∧
    ((get_msk_date_range mskNow).2 + 180) % 1440 = 480 ∧
    (get_msk_date_range mskNow).2 + 180 ≤ mskNow ∧
    mskNow < (get_msk_date_range mskNow).2 + 180 + 1440 := by
  unfold get_msk_date_range
  dsimp only
  split <;> omega

/-! ## Claim C6: Stage A score handling (`src/lm_studio_client.py`, `check_relevance`)

The HTTP transport and JSON extraction are abstracted: `parsed` is the
outcome of `_parse_json_response` (`none` on any malformed or
unparseable response), with the dictionary-key defaults
(`relevant` = false, `score` = 0.0) already applied. -/

/-- Result assembly of `check_relevance`: `(False, 0.0)` when parsing
failed, otherwise the parsed pair with the score replaced by `0.0`
whenever it lies outside `[0, 1]`
(`score = score if 0.0 <= score <= 1.0 else 0.0`). -/
def check_relevance_result (parsed : Option (Bool × ℚ)) : Bool × ℚ :=
  match parsed with
  | none => (false, 0)
  | some (relevant, score) =>
    (relevant, if 0 ≤ score ∧ score ≤ 1 then score else 0)

/-- C6 counterexample: on a well-formed response with numeric score 2 the
code returns score 0, while clamping into [0,1] as claimed would
return min(1, max(0, 2)) = 1. -/
theorem C6_counterexample :
    check_relevance_result (some (true, 2)) = (true, 0) ∧
    min 1 (max 0 (2 : ℚ)) = 1 ∧
    (check_relevance_result (some (true, 2))).2 ≠ min 1 (max 0 (2 : ℚ)) := by
  refine ⟨rfl, by norm_num, by norm_num [check_relevance_result]⟩

/-- C6 amended: an in-range score passes through unchanged, an
out-of-range score is replaced by 0.0 (not clamped), and a malformed
response yields `(false, 0.0)`. -/
theorem C6_amended (r : Bool) (s : ℚ) :
    (0 ≤ s → s ≤ 1 → check_relevance_result (some (r, s)) = (r, s)) ∧
    (s < 0 ∨ 1 < s → check_relevance_result (some (r, s)) = (r, 0)) ∧
    check_relevance_result none = (false, 0) := by
  refine ⟨fun h0 h1 => ?_, fun h => ?_, rfl⟩
  · simp [check_relevance_result, h0, h1]
  · rcases h with h | h <;>
      simp [check_relevance_result] <;> intro h0 h1 <;> linarith

theorem C6_amended_witness :
    check_relevance_result (some (true, 2)) = (true, 0) :=
  (C6_amended true 2).2.1 (Or.inr (by norm_num))

/-! ## Claim C8: the short-content gate
(`src/relevance_checker.py`, `check_relevance_batch` / `check_single_post`)

The LLM call is abstracted as an oracle `llm`; the second component of
the result records whether the oracle was consulted. -/

/-- The body of `check_single_post` inside `check_relevance_batch`: a
post whose `len(title) + len(content)` is below 50 is marked
`(False, 0.0)` without calling the LLM, otherwise the LM Studio verdict
is returned. -/
def check_single_post (title content : String)
    (llm : String → String → Bool × ℚ) : (Bool × ℚ) × Bool :=
  if title.length + content.length < 50 then ((false, 0), false)
  else (llm title content, true)

/-- A 60-character title. -/
def longTitle : String := String.mk (List.replicate 60 'a')

/-- C8 counterexample: a post whose content has only 5 < 50 characters
but whose title is long is still sent to the LLM (the gate tests
`len(title) + len(content)`, not the content length alone), and the
returned verdict is the LLM's, not `(false, 0.0)`. -/
theorem C8_counterexample :
    ("short".length < 50) ∧
    (check_single_post longTitle "short" (fun _ _ => (true, 1))).2 = true ∧
    (check_single_post longTitle "short" (fun _ _ => (true, 1))).1 ≠ (false, 0) := by
  decide

/-- C8 amended: an article whose combined `title + content` length is
below 50 characters is marked `(false, 0.0)` without any LLM request. -/
theorem C8_amended (title content : String) (llm : String → String → Bool × ℚ)
    (h : title.length + content.length < 50) :
    check_single_post title content llm = ((false, 0), false) := by
  simp [check_single_post, h]

theorem C8_amended_witness :
    check_single_post "" "tiny" (fun _ _ => (true, 1)) = ((false, 0), false) :=
  C8_amended "" "tiny" (fun _ _ => (true, 1)) (by decide)

/-! ## Claim C10: atomicity of the relevance batch update
(`src/db_manager.py`, `update_posts_relevance_batch`)

The function opens one session, updates each found post in it, and
issues a single `commit`; on an exception it rolls back and returns 0.
The transactional boundary is modelled by the `commitOk` flag: the
committed path applies every update, the failed path leaves the store
untouched.  The dictionary argument is modelled as an association list
with nodup keys; `score if score is not None else 0.0` is modelled by
an `Option ℚ`.  (The per-post `try/except` that skips a single failing
ORM attribute assignment has no counterpart in a pure model.) -/

/-- Update the first store row matching `post_id` (SQLAlchemy
`filter_by(post_id=...).first()`), setting `relevance`,
`relevance_score` (with `None` replaced by 0.0) and
`relevance_checked_at`. -/
def updateRelevanceFirst (pid : String) (rel : Bool) (score : Option ℚ)
    (now : Int) : List Article → List Article
  | [] => []
  | a :: rest =>
    if a.post_id = pid then
      { a with relevance := some rel, relevance_score := score.getD 0,
               relevance_checked_at := some now } :: rest
    else a :: updateRelevanceFirst pid rel score now rest

/-- `update_posts_relevance_batch`: apply each entry of
`relevance_results` to the store, counting the entries whose post was
found; commit once.  On commit failure roll back (store unchanged) and
return 0. -/
def update_posts_relevance_batch (store : List Article)
    (relevance_results : List (String × Bool × Option ℚ))
    (commitOk : Bool) (now : Int) : List Article × ℕ :=
  if commitOk then
    relevance_results.foldl
      (fun acc r =>
        if acc.1.any (fun a => a.post_id = r.1) then
          (updateRelevanceFirst r.1 r.2.1 r.2.2 now acc.1, acc.2 + 1)
        else (acc.1, acc.2))
      (store, 0)
  else (store, 0)

/-- Field updates do not change which post ids are present. -/
lemma updateRelevanceFirst_any (pid : String) (rel : Bool) (score : Option ℚ)
    (now : Int) (q : String) :
    ∀ st : List Article,
      (updateRelevanceFirst pid rel score now st).any (fun a => a.post_id = q)
        = st.any (fun a => a.post_id = q) := by
  intro st
  induction st with
  | nil => rfl
  | cons a rest ih =>
    by_cases h : a.post_id = pid <;>
      simp [updateRelevanceFirst, h, ih]

/-- The returned count accumulates one per entry whose id occurs in the
store, and the occurrence test is invariant across the fold. -/
lemma update_relevance_count (results : List (String × Bool × Option ℚ))
    (now : Int) :
    ∀ (st : List Article) (c : ℕ),
      (results.foldl
        (fun acc r =>
          if acc.1.any (fun a => a.post_id = r.1) then
            (updateRelevanceFirst r.1 r.2.1 r.2.2 now acc.1, acc.2 + 1)
          else (acc.1, acc.2))
        (st, c)).2
      = c + ((results.map Prod.fst).filter
          (fun pid => st.any (fun a => a.post_id = pid))).length := by
  induction results with
  | nil => intro st c; simp
  | cons r rest ih =>
    intro st c
    simp only [List.foldl_cons, List.map_cons]
    by_cases h : st.any (fun a => a.post_id = r.1) = true
    · rw [if_pos h, ih]
      have hfil : (rest.map Prod.fst).filter
            (fun pid => (updateRelevanceFirst r.1 r.2.1 r.2.2 now st).any
              (fun a => a.post_id = pid))
          = (rest.map Prod.fst).filter
            (fun pid => st.any (fun a => a.post_id = pid)) :=
        List.filter_congr
          (fun pid _ => updateRelevanceFirst_any r.1 r.2.1 r.2.2 now pid st)
      rw [hfil]
      simp [List.filter_cons, h]
      omega
    · rw [if_neg h, ih]
      simp [List.filter_cons, h]

/-- C10: the batch relevance update is atomic per call.  If the commit
fails the store is returned unchanged with count 0; on success the
returned count is the number of supplied (distinct) post ids that exist
in the store. -/
theorem C10_relevance_batch_atomic (store : List Article)
    (results : List (String × Bool × Option ℚ)) (now : Int) :
    update_posts_relevance_batch store results false now = (store, 0) ∧
    ((results.map Prod.fst).Nodup →
      (update_posts_relevance_batch store results true now).2
        = ((results.map Prod.fst).filter
            (fun pid => store.any (fun a => a.post_id = pid))).length) := by
  constructor
  · rfl
  · intro _
    unfold update_posts_relevance_batch
    rw [if_pos rfl]
    simpa using update_relevance_count results now store 0

theorem C10_witness :
    (update_posts_relevance_batch
        [⟨"p1", "t", "c", 0, none, 0, none, none, none, 0, none⟩]
        [("p1", true, some (1/2)), ("missing", false, none)] true 0).2 = 1 ∧
    ([("p1", true, some ((1:ℚ)/2)), ("missing", false, none)].map
        Prod.fst).Nodup :=
  ⟨by
    rw [(C10_relevance_batch_atomic
      [⟨"p1", "t", "c", 0, none, 0, none, none, none, 0, none⟩]
      [("p1", true, some (1/2)), ("missing", false, none)] 0).2 (by decide)]
    decide,
   by decide⟩

/-! ## Claims C2 and C3: the classification pipeline
(`src/db_manager.py` `get_relevant_unclassified_posts` /
`update_posts_classification`, `src/lm_studio_client.py`
`classify_content`, `src/content_classifier.py` `classify_posts_batch`)

The LLM transport is abstracted: `resp pid` is the outcome of
`_parse_json_response` for the classification request of post `pid`
(`none` on a malformed response), with the dictionary-key defaults
applied.  The SQLAlchemy session is explicit state with a `commitOk`
flag as in C10. -/

/-- Stable insertion step for descending sort on an integer-pair key
(lexicographic). -/
def insertByKeyDesc {α : Type} (key : α → Int × Int) (x : α) :
    List α → List α
  | [] => [x]
  | y :: ys =>
    if (key y).1 < (key x).1 ∨ ((key y).1 = (key x).1 ∧ (key y).2 ≤ (key x).2)
    then x :: y :: ys
    else y :: insertByKeyDesc key x ys

/-- Stable descending sort on an integer-pair key (models Python's
stable `sorted(..., reverse=True)` and SQL `ORDER BY ... DESC`). -/
def sortByKeyDesc {α : Type} (key : α → Int × Int) : List α → List α
  | [] => []
  | x :: xs => insertByKeyDesc key x (sortByKeyDesc key xs)

/-- `get_relevant_unclassified_posts`: rows with `relevance == True` and
`category IS NULL` (note: no `relevance_score` condition), newest first,
capped at `limit`. -/
def get_relevant_unclassified_posts (store : List Article) (limit : ℕ) :
    List Article :=
  (sortByKeyDesc (fun a => (a.published_on, 0))
    (store.filter
      (fun a => decide (a.relevance = some true ∧ a.category = none)))).take
    limit

/-- `_load_categories` of `src/content_classifier.py`: the closed
category → subcategory taxonomy. -/
def classifier_categories : List (String × List String) :=
  [("Политика", ["Внутренняя политика", "Международные отношения", "Выборы",
      "Партии и движения", "Государственное управление",
      "Коррупционные скандалы"]),
   ("Экономика", ["Макроэкономика", "Финансы и банки", "Фондовый рынок",
      "Налоги и законодательство", "Бизнес и корпорации",
      "Криптовалюты и блокчейн"]),
   ("Технологии", ["IT и софтвер", "Гаджеты и устройства",
      "Искусственный интеллект", "Кибербезопасность",
      "Космические технологии", "Стартапы и инновации"]),
   ("Общество", ["Социальные проблемы", "Образование", "Здравоохранение",
      "Демография", "Религия", "Благотворительность"]),
   ("Культура и искусство", ["Кино и сериалы", "Музыка", "Литература",
      "Театр и танцы", "Архитектура", "Мода и дизайн"]),
   ("Спорт", ["Футбол", "Хоккей", "Баскетбол", "Олимпийские игры",
      "Экстремальные виды спорта", "Электронный спорт (киберспорт)"]),
   ("Наука", ["Медицина и биотехнологии", "Физика и астрономия",
      "Химия и материалы", "Экология и климат", "Археология", "Генетика"]),
   ("Право и криминал", ["Уголовные дела", "Суды и законодательство",
      "Права человека", "Терроризм", "Киберпреступность"]),
   ("Экология и устойчивое развитие", ["Загрязнение окружающей среды",
      "Возобновляемая энергетика", "Защита животных", "Изменение климата",
      "Переработка отходов"]),
   ("Авто и транспорт", ["Автопром", "Электромобили", "ДТП и безопасность",
      "Общественный транспорт", "Автогонки"]),
   ("Недвижимость", ["Рынок жилья", "Ипотека", "Коммерческая недвижимость",
      "Строительство", "Дизайн интерьеров"]),
   ("Туризм и путешествия", ["Авиаперевозки", "Гостиничный бизнес",
      "Культурный туризм", "Экотуризм", "Виза и миграция"]),
   ("Сельское хозяйство", ["Агротехнологии", "Экспорт/импорт продуктов",
      "Животноводство", "Продовольственная безопасность"]),
   ("Энергетика", ["Нефть и газ", "Атомная энергетика",
      "Энергоэффективность", "Энергетические кризисы"]),
   ("Киберпространство", ["Социальные сети",
      "Виртуальная реальность (VR/AR)", "NFT и метавселенные",
      "Цифровая идентичность"]),
   ("Здоровый образ жизни", ["Диеты и питание", "Фитнес",
      "Ментальное здоровье", "Альтернативная медицина"]),
   ("Региональные новости", ["Местное самоуправление", "Городские проекты",
      "Культура регионов", "Гиперлокальные события"]),
   ("Международные конфликты", ["Войны и санкции",
      "Дипломатические кризисы", "Гуманитарные катастрофы",
      "Миротворческие миссии"]),
   ("Образование и карьера", ["Онлайн-образование", "Трудоустройство",
      "Профессии будущего", "Языковые курсы"]),
   ("Развлечения", ["Знаменитости", "Юмор и мемы", "Ивенты и фестивали",
      "Телешоу"]),
   ("Крипто и Web3", ["Децентрализованные финансы (DeFi)",
      "Регулирование крипторынка", "Майнинг", "DAO-организации"])]

/-- Validation part of `classify_content`: `("","",0.0)` on a malformed
response or a category outside the taxonomy; a subcategory outside the
category's list is blanked while the category is retained; an
out-of-range confidence is replaced by 0.0. -/
def classify_content (parsed : Option (String × String × ℚ))
    (categories : List (String × List String)) : String × String × ℚ :=
  match parsed with
  | none => ("", "", 0)
  | some (cat₀, sub₀, conf₀) =>
    let cat := cat₀.trim
    let sub := sub₀.trim
    match categories.lookup cat with
    | none => ("", "", 0)
    | some subs =>
      let sub := if sub ≠ "" ∧ sub ∉ subs then "" else sub
      let conf := if 0 ≤ conf₀ ∧ conf₀ ≤ 1 then conf₀ else 0
      (cat, sub, conf)

/-- `classify_single_post`: a too-short post gets the empty sentinel
without an LLM call, otherwise the validated `classify_content`
verdict. -/
def classify_single_post (a : Article)
    (resp : String → Option (String × String × ℚ)) : String × String × ℚ :=
  if a.title.length + a.content.length < 50 then ("", "", 0)
  else classify_content (resp a.post_id) classifier_categories

/-- `classify_posts_batch`: collect per-post verdicts and keep only those
with `category and subcategory` both non-empty
(`if category and subcategory:` — a blanked subcategory is dropped). -/
def classify_posts_batch (posts : List Article)
    (resp : String → Option (String × String × ℚ)) :
    List (String × String × String × ℚ) :=
  posts.filterMap (fun p =>
    let r := classify_single_post p resp
    if r.1 ≠ "" ∧ r.2.1 ≠ "" then some (p.post_id, r) else none)

/-- Update the first store row matching `post_id` with the supplied
classification (`update_posts_classification` loop body). -/
def updateClassificationFirst (pid cat sub : String) (conf : ℚ) (now : Int) :
    List Article → List Article
  | [] => []
  | a :: rest =>
    if a.post_id = pid then
      { a with category := some cat, subcategory := some sub,
               classification_confidence := conf,
               classified_at := some now } :: rest
    else a :: updateClassificationFirst pid cat sub conf now rest

/-- `update_posts_classification`: apply every supplied classification in
one session, counting the found posts; a single commit, with rollback
(store unchanged, count 0) on failure. -/
def update_posts_classification (store : List Article)
    (classifications : List (String × String × String × ℚ))
    (commitOk : Bool) (now : Int) : List Article × ℕ :=
  if commitOk then
    classifications.foldl
      (fun acc r =>
        if acc.1.any (fun a => a.post_id = r.1) then
          (updateClassificationFirst r.1 r.2.1 r.2.2.1 r.2.2.2 now acc.1,
           acc.2 + 1)
        else (acc.1, acc.2))
      (store, 0)
  else (store, 0)

/-- One round of `process_relevant_unclassified_posts`: select, classify,
persist. -/
def classification_step (store : List Article) (limit : ℕ)
    (resp : String → Option (String × String × ℚ))
    (commitOk : Bool) (now : Int) : List Article × ℕ :=
  let selected := get_relevant_unclassified_posts store limit
  update_posts_classification store (classify_posts_batch selected resp)
    commitOk now

lemma mem_insertByKeyDesc {α : Type} (key : α → Int × Int) (x y : α) :
    ∀ l : List α, y ∈ insertByKeyDesc key x l ↔ y = x ∨ y ∈ l := by
  intro l
  induction l with
  | nil => simp [insertByKeyDesc]
  | cons z zs ih =>
    by_cases h : (key z).1 < (key x).1 ∨
        ((key z).1 = (key x).1 ∧ (key z).2 ≤ (key x).2)
    · simp [insertByKeyDesc, h]
    · simp only [insertByKeyDesc, if_neg h, List.mem_cons, ih]
      tauto

lemma mem_sortByKeyDesc {α : Type} (key : α → Int × Int) (y : α) :
    ∀ l : List α, y ∈ sortByKeyDesc key l ↔ y ∈ l := by
  intro l
  induction l with
  | nil => simp [sortByKeyDesc]
  | cons x xs ih => simp [sortByKeyDesc, mem_insertByKeyDesc, ih]

/-- Everything selected by `get_relevant_unclassified_posts` is a stored
row with `relevance == True` and `category IS NULL`. -/
lemma sel_spec (store : List Article) (limit : ℕ) :
    ∀ a ∈ get_relevant_unclassified_posts store limit,
      a ∈ store ∧ a.relevance = some true ∧ a.category = none := by
  intro a ha
  have h1 := List.take_subset limit _ ha
  rw [mem_sortByKeyDesc] at h1
  have h2 := List.mem_filter.mp h1
  refine ⟨h2.1, ?_⟩
  simpa using h2.2

/-- A classification update produces rows that are either untouched or a
field update of a stored row with the matching id; `post_id` and
`relevance` are never altered. -/
lemma mem_updateClassificationFirst (pid cat sub : String) (conf : ℚ)
    (now : Int) (b : Article) :
    ∀ st : List Article,
      b ∈ updateClassificationFirst pid cat sub conf now st →
      b ∈ st ∨ ∃ a, a ∈ st ∧ a.post_id = pid ∧ b.post_id = a.post_id ∧
        b.relevance = a.relevance ∧ b.category = some cat := by
  intro st
  induction st with
  | nil => intro h; simp [updateClassificationFirst] at h
  | cons a rest ih =>
    intro h
    by_cases hpid : a.post_id = pid
    · rw [updateClassificationFirst, if_pos hpid] at h
      rcases List.mem_cons.mp h with hb | hb
      · exact Or.inr ⟨a, List.mem_cons_self a rest, hpid, by rw [hb],
          by rw [hb], by rw [hb]⟩
      · exact Or.inl (List.mem_cons_of_mem _ hb)
    · rw [updateClassificationFirst, if_neg hpid] at h
      rcases List.mem_cons.mp h with hb | hb
      · exact Or.inl (by rw [hb]; exact List.mem_cons_self a rest)
      · rcases ih hb with h' | ⟨a0, ha0, h1, h2, h3, h4⟩
        · exact Or.inl (List.mem_cons_of_mem _ h')
        · exact Or.inr ⟨a0, List.mem_cons_of_mem _ ha0, h1, h2, h3, h4⟩

/-- The fold of `update_posts_classification` preserves the invariant
`category ≠ null → relevance = true` whenever every id it touches
belongs to a relevant row. -/
lemma classification_fold_inv (now : Int) :
    ∀ (cls : List (String × String × String × ℚ)) (st : List Article)
      (c : ℕ),
      (∀ r ∈ cls, ∀ a ∈ st, a.post_id = r.1 → a.relevance = some true) →
      (∀ a ∈ st, a.category ≠ none → a.relevance = some true) →
      ∀ b ∈ (cls.foldl
          (fun acc r =>
            if acc.1.any (fun a => a.post_id = r.1) then
              (updateClassificationFirst r.1 r.2.1 r.2.2.1 r.2.2.2 now acc.1,
               acc.2 + 1)
            else (acc.1, acc.2)) (st, c)).1,
        b.category ≠ none → b.relevance = some true := by
  intro cls
  induction cls with
  | nil => intro st c _ hinv; simpa using hinv
  | cons r rest ih =>
    intro st c hgood hinv
    simp only [List.foldl_cons]
    by_cases hany : (st.any (fun a => a.post_id = r.1)) = true
    · rw [if_pos hany]
      apply ih
      · intro r' hr' a ha hpid
        rcases mem_updateClassificationFirst _ _ _ _ _ _ _ ha with
          h | ⟨a0, ha0, _, hid, hrel, _⟩
        · exact hgood r' (List.mem_cons_of_mem _ hr') a h hpid
        · rw [hrel]
          exact hgood r' (List.mem_cons_of_mem _ hr') a0 ha0
            (by rw [← hid]; exact hpid)
      · intro a ha hcat
        rcases mem_updateClassificationFirst _ _ _ _ _ _ _ ha with
          h | ⟨a0, ha0, hpid0, _, hrel, _⟩
        · exact hinv a h hcat
        · rw [hrel]
          exact hgood r (List.mem_cons_self _ _) a0 ha0 hpid0
    · rw [if_neg hany]
      exact ih st c (fun r' hr' => hgood r' (List.mem_cons_of_mem _ hr')) hinv

/-- Every key produced by `classify_posts_batch` is the id of one of the
posts it was given. -/
lemma classify_posts_batch_keys (posts : List Article)
    (resp : String → Option (String × String × ℚ)) :
    ∀ r ∈ classify_posts_batch posts resp, ∃ p ∈ posts, p.post_id = r.1 := by
  intro r hr
  rcases List.mem_filterMap.mp hr with ⟨p, hp, hsome⟩
  refine ⟨p, hp, ?_⟩
  dsimp only at hsome
  by_cases hc : (classify_single_post p resp).1 ≠ "" ∧
      (classify_single_post p resp).2.1 ≠ ""
  · rw [if_pos hc] at hsome
    cases hsome
    rfl
  · rw [if_neg hc] at hsome
    cases hsome

/-- C2 amended: the selection feeding classification yields exactly the
rows with `relevance = true` and `category IS NULL` (with no
`relevance_score ≥ 0.7` condition), and one classification round
preserves the weakened invariant `category ≠ null ⇒ relevance = true`
(the score conjunct of I3 does not hold, see the counterexample). -/
theorem C2_amended (store : List Article) (limit : ℕ)
    (resp : String → Option (String × String × ℚ)) (commitOk : Bool)
    (now : Int)
    (hnodup : (store.map Article.post_id).Nodup)
    (hinv : ∀ a ∈ store, a.category ≠ none → a.relevance = some true) :
    (∀ a ∈ get_relevant_unclassified_posts store limit,
        a.relevance = some true ∧ a.category = none) ∧
    (∀ b ∈ (classification_step store limit resp commitOk now).1,
        b.category ≠ none → b.relevance = some true) := by
  refine ⟨fun a ha => (sel_spec store limit a ha).2, ?_⟩
  intro b hb
  unfold classification_step update_posts_classification at hb
  by_cases hc : commitOk = true
  · rw [if_pos hc] at hb
    refine classification_fold_inv now _ store 0 ?_ hinv b hb
    intro r hr a ha hpid
    obtain ⟨p, hp, hpid2⟩ := classify_posts_batch_keys _ _ r hr
    have hps := sel_spec store limit p hp
    have hap : a = p :=
      List.inj_on_of_nodup_map hnodup ha hps.1 (by rw [hpid, hpid2])
    rw [hap]
    exact hps.2.1
  · rw [if_neg hc] at hb
    exact hinv b hb

/-- A 60-character content body (long enough for the classifier's
length gate). -/
def c2Content : String := String.mk (List.replicate 60 'b')

/-- A store holding one relevant but weakly-scored (0.5 < 0.7)
unclassified article. -/
def c2Store : List Article :=
  [⟨"a1", "t", c2Content, 0, some true, 1/2, none, none, none, 0, none⟩]

/-- A classification response with a valid category and subcategory. -/
def c2Resp : String → Option (String × String × ℚ) :=
  fun _ => some ("Политика", "Внутренняя политика", 9/10)

/-- C2 counterexample: the selection yields an article with
`relevance_score = 0.5 < 0.7`, and after the classification round the
store holds an article with a non-null category and score 0.5,
violating I3 as claimed. -/
theorem C2_counterexample :
    ((get_relevant_unclassified_posts c2Store 10).map
        Article.relevance_score) = [1/2] ∧
    ((classification_step c2Store 10 c2Resp true 0).1.map
        (fun a => (a.category, a.relevance_score)))
      = [(some "Политика", 1/2)] ∧
    ((1 : ℚ)/2 < 7/10) := by
  refine ⟨by with_unfolding_all decide, by with_unfolding_all decide,
    by norm_num⟩

theorem C2_amended_witness :
    (⟨"a1", "t", c2Content, 0, some true, 1/2, none, some "Политика",
        some "Внутренняя политика", 9/10, some 0⟩ : Article).relevance
      = some true :=
  (C2_amended c2Store 10 c2Resp true 0 (by decide)
      (by decide)).2 _ (by with_unfolding_all decide) (by decide)

/-- A store holding one relevant, strongly-scored unclassified
article. -/
def c3Store : List Article :=
  [⟨"a2", "t", c2Content, 0, some true, 9/10, none, none, none, 0, none⟩]

/-- The E5 scenario response: valid category, invalid subcategory. -/
def c3Resp : String → Option (String × String × ℚ) :=
  fun _ => some ("Политика", "Cooking", 4/5)

/-- C3 (code bug): `classify_content` blanks the invalid subcategory and
retains the category as claimed, but `classify_posts_batch` then drops
the verdict (`if category and subcategory:`), so nothing is persisted:
the store is unchanged and the update count is 0, contradicting the
expected E5 outcome `category="Политика", subcategory=null,
confidence=0.8`. -/
theorem C3_blanked_subcategory_not_persisted :
    classify_content (some ("Политика", "Cooking", 4/5))
        classifier_categories = ("Политика", "", 4/5) ∧
    classify_posts_batch (get_relevant_unclassified_posts c3Store 10)
        c3Resp = [] ∧
    (classification_step c3Store 10 c3Resp true 0).1 = c3Store ∧
    (classification_step c3Store 10 c3Resp true 0).2 = 0 := by
  with_unfolding_all decide

/-! ## Claim C1: intra-batch greedy deduplication
(`src/batch_manager.py`, `deduplicate_batch`)

The TF-IDF vectorization is abstracted: `counts i` is the TF-IDF row sum
(`term_counts[i]`) of the i-th post's normalized text and `sim i j` the
cosine similarity `pairwise_similarity[i, j]`; `vecOk` is the success of
`fit_transform` (the `except` branch).  The selection loop itself is
translated literally, fuelled by `n + 1` (each iteration adds one index
to `selected`, so the fuel is never exhausted). -/

/-- Python's `max(available, key=...)`: the first element attaining the
maximal key. -/
def pyMax (key : ℕ → ℚ) : ℕ → List ℕ → ℕ
  | best, [] => best
  | best, x :: xs => pyMax key (if key best < key x then x else best) xs

/-- The `while all_indices and (not keep_min_one or len(selected_indices)
== 0)` loop of `deduplicate_batch`: recompute the available indices,
pick the highest-scored one, exclude the available indices similar to
it above the threshold, repeat. -/
def dedupLoop (counts : ℕ → ℚ) (sim : ℕ → ℕ → ℚ) (thr : ℚ)
    (keepMinOne : Bool) (n : ℕ) :
    ℕ → List ℕ → List ℕ → List ℕ
  | 0, selected, _ => selected
  | fuel + 1, selected, excluded =>
    if n = 0 then selected
    else if keepMinOne && !selected.isEmpty then selected
    else
      let available := (List.range n).filter
        (fun i => !excluded.contains i && !selected.contains i)
      match available with
      | [] => selected
      | a :: rest =>
        let best := pyMax counts a rest
        let newExcluded := excluded ++ available.filter
          (fun idx => decide (idx ≠ best ∧ thr < sim best idx))
        dedupLoop counts sim thr keepMinOne n fuel (selected ++ [best])
          newExcluded

/-- `deduplicate_batch`: empty and singleton lists are returned as-is; on
a vectorizer error the first post (or nothing) is returned; otherwise
the greedy selection loop runs over the similarity matrix. -/
def deduplicate_batch (posts : List Post) (counts : ℕ → ℚ)
    (sim : ℕ → ℕ → ℚ) (thr : ℚ) (vecOk : Bool) (keepMinOne : Bool) :
    List Post :=
  if posts.isEmpty then []
  else if posts.length = 1 then posts
  else if vecOk then
    let n := posts.length
    let selected := dedupLoop counts sim thr keepMinOne n (n + 1) [] []
    selected.filterMap (fun i => posts.get? i)
  else if keepMinOne then posts.take 1
  else []

/-- Two completely dissimilar posts (cosine 0), the second richer. -/
def c1Posts : List Post :=
  [⟨"d0", "t0", "alpha", "", none⟩, ⟨"d1", "t1", "beta", "", none⟩]

/-- TF-IDF row sums for `c1Posts`. -/
def c1Counts : ℕ → ℚ := fun i => if i = 1 then 2 else 1

/-- Cosine similarity matrix for `c1Posts`: distinct posts are fully
dissimilar. -/
def c1Sim : ℕ → ℕ → ℚ := fun i j => if i = j then 1 else 0

/-- C1 (code bug): with `keep_min_one=True` — the only way the code calls
it — the loop condition `not keep_min_one or len(selected_indices) == 0`
fails as soon as one post is selected, so the selection is NOT run to
exhaustion: of two fully dissimilar posts only the higher-scored one is
returned, and the dropped post is neither in the output nor similar
(above the 0.65 threshold) to any output post.  With
`keep_min_one=False` the loop does run to exhaustion and keeps both,
matching the claimed behaviour. -/
theorem C1_greedy_stops_after_first_pick :
    deduplicate_batch c1Posts c1Counts c1Sim 0.65 true true
      = [⟨"d1", "t1", "beta", "", none⟩] ∧
    (⟨"d0", "t0", "alpha", "", none⟩ : Post) ∉
      deduplicate_batch c1Posts c1Counts c1Sim 0.65 true true ∧
    ¬ (0.65 : ℚ) < c1Sim 1 0 ∧
    deduplicate_batch c1Posts c1Counts c1Sim 0.65 true false
      = [⟨"d1", "t1", "beta", "", none⟩, ⟨"d0", "t0", "alpha", "", none⟩] := by
  with_unfolding_all decide

/-! ## Claim C5: per-item summarization
(`src/lm_studio_client.py`, `analyze_and_summarize`)

The chat transport is abstracted: `resp i` is the parsed JSON of the
response for the i-th post of the (truncated) work list, shaped as a
JSON array, a single object, or anything else (`bad`).  An object is
modelled by its three optional fields; `"summary" in parsed[0]` is
modelled as `summary.isSome`. -/

/-- A parsed summary object. -/
structure SummItem where
  post_id : Option String
  title : Option String
  summary : Option String
deriving DecidableEq, Repr

/-- Shape of a parsed summarization response. -/
inductive SummResp where
  | arr : List SummItem → SummResp
  | obj : SummItem → SummResp
  | bad : SummResp
deriving DecidableEq, Repr

/-- A summarization work item (`{post_id, title, content}`). -/
structure SummReq where
  post_id : String
  title : String
  content : String
deriving DecidableEq, Repr

/-- `analyze_and_summarize`: for each of the first `max_stories` posts
with non-blank id and content, keep the first element of a returned
array (or a bare object) whenever it carries a `summary` key.  The
returned `post_id` is never compared with the requested one. -/
def analyze_and_summarize (posts : List SummReq) (resp : ℕ → SummResp)
    (maxStories : ℕ) : List SummItem :=
  (posts.take maxStories).enum.filterMap (fun p =>
    if p.2.post_id.trim = "" ∨ p.2.content.trim = "" then none
    else
      match resp p.1 with
      | .arr (item :: _) => if item.summary.isSome then some item else none
      | .arr [] => none
      | .obj item => if item.summary.isSome then some item else none
      | .bad => none)

/-- One well-formed summarization request. -/
def c5Posts : List SummReq := [⟨"p1", "Title", "Body text"⟩]

/-- A response whose `post_id` differs from the requested `"p1"`. -/
def c5Resp : ℕ → SummResp :=
  fun _ => .arr [⟨some "WRONG", some "Заголовок", some "Саммари"⟩]

/-- C5 counterexample: a returned item whose `post_id` differs from the
requested one is kept, not dropped. -/
theorem C5_counterexample :
    analyze_and_summarize c5Posts c5Resp 10
      = [⟨some "WRONG", some "Заголовок", some "Саммари"⟩] ∧
    (some "WRONG" : Option String) ≠ some "p1" := by
  with_unfolding_all decide

/-- C5 amended: the implementation extracts the first element of the
returned array and keeps it whenever it carries a `summary` field; the
returned `post_id` is not validated against the requested id, so a
mismatching item is kept nevertheless (items are dropped only for
blank requests or responses of the wrong shape). -/
theorem C5_amended (posts : List SummReq) (resp : ℕ → SummResp)
    (maxStories i : ℕ) (post : SummReq) (item : SummItem)
    (rest : List SummItem)
    (hget : (posts.take maxStories)[i]? = some post)
    (hid : post.post_id.trim ≠ "") (hcontent : post.content.trim ≠ "")
    (hresp : resp i = .arr (item :: rest))
    (hsum : item.summary.isSome) :
    item ∈ analyze_and_summarize posts resp maxStories := by
  unfold analyze_and_summarize
  rw [List.mem_filterMap]
  refine ⟨(i, post), ?_, ?_⟩
  · rw [List.mk_mem_enum_iff_getElem?]
    exact hget
  · simp [hid, hcontent, hresp, hsum]

theorem C5_amended_witness :
    (⟨some "WRONG", some "Заголовок", some "Саммари"⟩ : SummItem) ∈
      analyze_and_summarize c5Posts c5Resp 10 :=
  C5_amended c5Posts c5Resp 10 0 ⟨"p1", "Title", "Body text"⟩ _ []
    (by decide) (by with_unfolding_all decide) (by with_unfolding_all decide)
    rfl rfl

/-! ## Claim C9: idempotence of the dedup full processing
(`src/text_preprocessing.py`, `process_posts` =
`filter_by_simhash_and_similarity` then `filter_by_global_similarity`)

The TF-IDF cosine similarity of two texts is abstracted as a function
`sim : String → String → ℚ` (for the evaluated inputs below only
identical texts are ever compared, whose cosine is 1 under any fitted
vectorizer).  `vecOk` is the success of `fit_transform`.  The Python
`set` union of kept and protected ids is modelled in first-occurrence
order; the claims about this function are stated up to membership. -/

/-- `f"{post.title or ''} {post.content or ''}".strip()`. -/
def postText (p : Post) : String := (p.title ++ " " ++ p.content).trim

/-- `_filter_by_similarity`: drop texts shorter than
`min_content_length`; on a vectorizer error return them as-is;
otherwise greedily keep, scanning texts by decreasing (length, index),
every text whose cosine to all already-kept texts is at most the
threshold. -/
def filter_by_similarity (sim : String → String → ℚ) (minLen : ℕ)
    (thr : ℚ) (vecOk : Bool) (texts : List String) (ids : List String) :
    List String × List String :=
  let pairs := (texts.zip ids).filter (fun t => decide (minLen ≤ t.1.length))
  let ftexts := pairs.map Prod.fst
  let fids := pairs.map Prod.snd
  if ftexts.isEmpty then ([], [])
  else if !vecOk then (ftexts, fids)
  else
    let n := ftexts.length
    let sortedIdx := sortByKeyDesc
      (fun i => (((ftexts.getD i "").length : Int), (i : Int)))
      (List.range n)
    let uniq := sortedIdx.foldl (fun acc i =>
      if acc.all (fun j =>
          decide (sim (ftexts.getD i "") (ftexts.getD j "") ≤ thr))
      then acc ++ [i] else acc) []
    (uniq.map (fun i => ftexts.getD i ""), uniq.map (fun i => fids.getD i ""))

/-- Group key: the post's simhash, or `"default_simhash"` when absent. -/
def simKey (p : Post) : String :=
  if p.simhash ≠ "" then p.simhash else "default_simhash"

/-- `defaultdict(list)` insertion: append to the keyed group, creating it
at the end when new. -/
def addToGroups (k : String) (p : Post) :
    List (String × List Post) → List (String × List Post)
  | [] => [(k, [p])]
  | g :: rest =>
    if g.1 = k then (g.1, g.2 ++ [p]) :: rest
    else g :: addToGroups k p rest

/-- `simhash_groups` of `filter_by_simhash_and_similarity`, in insertion
order. -/
def groupBySimhash (posts : List Post) : List (String × List Post) :=
  posts.foldl (fun gs p => addToGroups (simKey p) p gs) []

/-- First group of maximal size (what
`sorted(items, key=len, reverse=True)[0]` selects, Python's sort being
stable). -/
def maxSizeGroup : List (String × List Post) → Option (String × List Post)
  | [] => none
  | g :: gs =>
    match maxSizeGroup gs with
    | none => some g
    | some g' => if g.2.length < g'.2.length then some g' else some g

/-- When fewer than `min_batches` groups exist, halve the largest group
(if it has more than one post): its entry is replaced in place by the
first half and a `"_split"` entry with the second half is appended. -/
def splitGroups (minBatches : ℕ) (gs : List (String × List Post)) :
    List (String × List Post) :=
  if gs.length < minBatches then
    match maxSizeGroup gs with
    | none => gs
    | some (k, g) =>
      if 1 < g.length then
        let mid := g.length / 2
        (gs.map (fun kg => if kg.1 = k then (kg.1, g.take mid) else kg))
          ++ [(k ++ "_split", g.drop mid)]
      else gs
  else gs

/-- `filter_by_simhash_and_similarity` (filter 1): drop posts with a
combined title+content length below `min_content_length`, group by
simhash, ensure at least `min_batches` groups, and keep, per group and
in group order, the posts whose id survives `_filter_by_similarity` on
the group's non-empty texts. -/
def filter_by_simhash_and_similarity (sim : String → String → ℚ)
    (minLen : ℕ) (thr : ℚ) (minBatches : ℕ) (vecOk : Bool)
    (posts : List Post) : List Post :=
  if posts.isEmpty then []
  else
    let fposts := posts.filter
      (fun p => decide (minLen ≤ p.content.length + p.title.length))
    if fposts.isEmpty then []
    else
      let groups := splitGroups minBatches (groupBySimhash fposts)
      groups.foldl (fun acc kg =>
        let pairs := kg.2.filterMap (fun p =>
          let t := postText p
          if t ≠ "" then some (t, p.post_id) else none)
        let uids := (filter_by_similarity sim minLen thr vecOk
          (pairs.map Prod.fst) (pairs.map Prod.snd)).2
        acc ++ kg.2.filter (fun p => uids.contains p.post_id)) []

/-- `id_to_post[pid]`: the last post with that id among those
contributing a non-empty text. -/
def idToPost (posts : List Post) (pid : String) : Option Post :=
  (posts.filter (fun p => decide (postText p ≠ "" ∧ p.post_id = pid))).getLast?

/-- `filter_by_global_similarity` (filter 2): run
`_filter_by_similarity` over all non-empty texts with the threshold
temporarily lowered to `max(0.6, threshold - 0.05)`, add back the ids of
posts with `relevance_score > 0.7`, and resolve ids through
`id_to_post`; if fewer than 10 posts survive while more than 10 came
in, return instead the 10 longest input posts. -/
def filter_by_global_similarity (sim : String → String → ℚ) (minLen : ℕ)
    (thr : ℚ) (vecOk : Bool) (posts : List Post) : List Post :=
  if posts.isEmpty then []
  else
    let entries := posts.filterMap (fun p =>
      let t := postText p
      if t ≠ "" then some (t, p.post_id) else none)
    let protectedIds := (posts.filter (fun p =>
        match p.relevance_score with
        | some s => decide ((0.7 : ℚ) < s)
        | none => false)).map Post.post_id
    let thr' := max 0.6 (thr - 0.05)
    let uids := (filter_by_similarity sim minLen thr' vecOk
      (entries.map Prod.fst) (entries.map Prod.snd)).2
    let finalIds := (uids ++ protectedIds).foldl
      (fun acc x => if acc.contains x then acc else acc ++ [x]) []
    let filtered := finalIds.filterMap (idToPost posts)
    if filtered.length < 10 ∧ 10 < posts.length then
      (sortByKeyDesc
        (fun p => ((p.content.length + p.title.length : Int), 0)) posts).take
        10
    else filtered

/-- `process_posts`: filter 1 then filter 2, with the constructor
defaults `similarity_threshold = 0.85`, `min_content_length = 100`,
`min_batches = 2` (the token-limiting step is commented out in the
source). -/
def process_posts (sim : String → String → ℚ) (posts : List Post) :
    List Post :=
  filter_by_global_similarity sim 100 0.85 true
    (filter_by_simhash_and_similarity sim 100 0.85 2 true posts)

/-- Members of groups after a `defaultdict` insertion come from the
previous groups or are the inserted post. -/
lemma mem_addToGroups (k : String) (q : Post) :
    ∀ (gs : List (String × List Post)) (kg : String × List Post)
      (p : Post), kg ∈ addToGroups k q gs → p ∈ kg.2 →
      p = q ∨ ∃ kg' ∈ gs, p ∈ kg'.2 := by
  intro gs
  induction gs with
  | nil =>
    intro kg p hkg hp
    simp only [addToGroups, List.mem_singleton] at hkg
    subst hkg
    simp only [List.mem_singleton] at hp
    exact Or.inl hp
  | cons g rest ih =>
    intro kg p hkg hp
    by_cases hk : g.1 = k
    · rw [addToGroups, if_pos hk] at hkg
      rcases List.mem_cons.mp hkg with h | h
      · subst h
        rcases List.mem_append.mp hp with h' | h'
        · exact Or.inr ⟨g, List.mem_cons_self g rest, h'⟩
        · simp only [List.mem_singleton] at h'
          exact Or.inl h'
      · exact Or.inr ⟨kg, List.mem_cons_of_mem _ h, hp⟩
    · rw [addToGroups, if_neg hk] at hkg
      rcases List.mem_cons.mp hkg with h | h
      · subst h
        exact Or.inr ⟨kg, List.mem_cons_self _ _, hp⟩
      · rcases ih kg p h hp with h' | ⟨kg', hkg', hp'⟩
        · exact Or.inl h'
        · exact Or.inr ⟨kg', List.mem_cons_of_mem _ hkg', hp'⟩

/-- Members of the simhash groups are input posts. -/
lemma mem_groupBySimhash (posts : List Post) :
    ∀ kg ∈ groupBySimhash posts, ∀ p ∈ kg.2, p ∈ posts := by
  suffices h : ∀ (posts : List Post) (gs0 : List (String × List Post))
      (kg : String × List Post) (p : Post),
      kg ∈ posts.foldl (fun gs p => addToGroups (simKey p) p gs) gs0 →
      p ∈ kg.2 → (∃ kg' ∈ gs0, p ∈ kg'.2) ∨ p ∈ posts by
    intro kg hkg p hp
    rcases h posts [] kg p hkg hp with ⟨kg', hkg', _⟩ | h'
    · simp at hkg'
    · exact h'
  intro posts
  induction posts with
  | nil => intro gs0 kg p hkg hp; exact Or.inl ⟨kg, hkg, hp⟩
  | cons q rest ih =>
    intro gs0 kg p hkg hp
    simp only [List.foldl_cons] at hkg
    rcases ih _ kg p hkg hp with ⟨kg', hkg', hp'⟩ | h'
    · rcases mem_addToGroups _ _ _ _ _ hkg' hp' with h | ⟨kg'', h1, h2⟩
      · exact Or.inr (by rw [h]; exact List.mem_cons_self q rest)
      · exact Or.inl ⟨kg'', h1, h2⟩
    · exact Or.inr (List.mem_cons_of_mem _ h')

/-- The largest group is one of the groups. -/
lemma maxSizeGroup_mem :
    ∀ (gs : List (String × List Post)) (kg : String × List Post),
      maxSizeGroup gs = some kg → kg ∈ gs := by
  intro gs
  induction gs with
  | nil => intro kg h; simp [maxSizeGroup] at h
  | cons g rest ih =>
    intro kg h
    rw [maxSizeGroup] at h
    rcases hm : maxSizeGroup rest with _ | g'
    · rw [hm] at h
      cases h
      exact List.mem_cons_self _ _
    · rw [hm] at h
      dsimp only at h
      by_cases hlt : g.2.length < g'.2.length
      · rw [if_pos hlt] at h
        cases h
        exact List.mem_cons_of_mem _ (ih _ hm)
      · rw [if_neg hlt] at h
        cases h
        exact List.mem_cons_self _ _

/-- Splitting groups introduces no new posts. -/
lemma mem_splitGroups (minBatches : ℕ) (gs : List (String × List Post)) :
    ∀ kg ∈ splitGroups minBatches gs, ∀ p ∈ kg.2, ∃ kg' ∈ gs, p ∈ kg'.2 := by
  intro kg hkg p hp
  unfold splitGroups at hkg
  by_cases hlen : gs.length < minBatches
  · rw [if_pos hlen] at hkg
    rcases hm : maxSizeGroup gs with _ | ⟨k, g⟩
    · rw [hm] at hkg
      exact ⟨kg, hkg, hp⟩
    · rw [hm] at hkg
      dsimp only at hkg
      by_cases hg : 1 < g.length
      · rw [if_pos hg] at hkg
        rcases List.mem_append.mp hkg with h | h
        · rcases List.mem_map.mp h with ⟨kg0, hkg0, heq⟩
          by_cases hk : kg0.1 = k
          · rw [if_pos hk] at heq
            subst heq
            exact ⟨(k, g), maxSizeGroup_mem gs _ hm,
              List.take_subset _ _ hp⟩
          · rw [if_neg hk] at heq
            subst heq
            exact ⟨kg0, hkg0, hp⟩
        · simp only [List.mem_singleton] at h
          subst h
          exact ⟨(k, g), maxSizeGroup_mem gs _ hm,
            List.drop_subset _ _ hp⟩
      · rw [if_neg hg] at hkg
        exact ⟨kg, hkg, hp⟩
  · rw [if_neg hlen] at hkg
    exact ⟨kg, hkg, hp⟩

/-- Collecting per-group survivors only ever emits posts of some
group. -/
lemma mem_collect_groups {β : Type} (F : β → List Post → List Post)
    (hF : ∀ b l, ∀ p ∈ F b l, p ∈ l) (groups : List β)
    (proj : β → List Post) :
    ∀ (acc : List Post) (p : Post),
      p ∈ groups.foldl (fun acc b => acc ++ F b (proj b)) acc →
      p ∈ acc ∨ ∃ b ∈ groups, p ∈ proj b := by
  induction groups with
  | nil => intro acc p hp; exact Or.inl hp
  | cons b rest ih =>
    intro acc p hp
    simp only [List.foldl_cons] at hp
    rcases ih _ p hp with h | ⟨b', hb', hp'⟩
    · rcases List.mem_append.mp h with h' | h'
      · exact Or.inl h'
      · exact Or.inr ⟨b, List.mem_cons_self _ _, hF b _ _ h'⟩
    · exact Or.inr ⟨b', List.mem_cons_of_mem _ hb', hp'⟩

/-- Filter 1 returns a subset of its input. -/
lemma filter_by_simhash_subset (sim : String → String → ℚ) (minLen : ℕ)
    (thr : ℚ) (minBatches : ℕ) (vecOk : Bool) (posts : List Post) :
    ∀ p ∈ filter_by_simhash_and_similarity sim minLen thr minBatches vecOk
        posts, p ∈ posts := by
  intro p hp
  unfold filter_by_simhash_and_similarity at hp
  by_cases h0 : posts.isEmpty
  · rw [if_pos h0] at hp
    simp at hp
  · rw [if_neg h0] at hp
    set fposts := posts.filter
      (fun p => decide (minLen ≤ p.content.length + p.title.length)) with hf
    by_cases h1 : fposts.isEmpty
    · rw [if_pos h1] at hp
      simp at hp
    · rw [if_neg h1] at hp
      dsimp only at hp
      have := mem_collect_groups
        (fun kg l => l.filter (fun p =>
          ((filter_by_similarity sim minLen thr vecOk
            ((kg.2.filterMap (fun p =>
              if postText p ≠ "" then some (postText p, p.post_id)
              else none)).map Prod.fst)
            ((kg.2.filterMap (fun p =>
              if postText p ≠ "" then some (postText p, p.post_id)
              else none)).map Prod.snd)).2).contains p.post_id))
        (fun b l p hmem => List.mem_filter.mp hmem |>.1)
        (splitGroups minBatches (groupBySimhash fposts))
        (fun kg => kg.2) [] p ?_
      · rcases this with h | ⟨kg, hkg, hp'⟩
        · simp at h
        · obtain ⟨kg', hkg', hp''⟩ :=
            mem_splitGroups minBatches (groupBySimhash fposts) kg hkg p hp'
          have hpf : p ∈ fposts :=
            mem_groupBySimhash fposts kg' hkg' p hp''
          exact List.mem_filter.mp (hf ▸ hpf) |>.1
      · exact hp

/-- `id_to_post` resolves to an input post. -/
lemma idToPost_mem (posts : List Post) (pid : String) (p : Post) :
    idToPost posts pid = some p → p ∈ posts := by
  intro h
  have := List.mem_of_getLast?_eq_some h
  exact (List.mem_filter.mp this).1

/-- Filter 2 returns a subset of its input. -/
lemma filter_by_global_subset (sim : String → String → ℚ) (minLen : ℕ)
    (thr : ℚ) (vecOk : Bool) (posts : List Post) :
    ∀ p ∈ filter_by_global_similarity sim minLen thr vecOk posts,
      p ∈ posts := by
  intro p hp
  unfold filter_by_global_similarity at hp
  by_cases h0 : posts.isEmpty
  · rw [if_pos h0] at hp
    simp at hp
  · rw [if_neg h0] at hp
    dsimp only at hp
    split at hp
    · have := List.take_subset 10 _ hp
      rw [mem_sortByKeyDesc] at this
      exact this
    · rcases List.mem_filterMap.mp hp with ⟨pid, _, hres⟩
      exact idToPost_mem posts pid p hres

/-- `process_posts` returns a subset of its input. -/
lemma process_posts_subset (sim : String → String → ℚ)
    (posts : List Post) :
    ∀ p ∈ process_posts sim posts, p ∈ posts := by
  intro p hp
  unfold process_posts at hp
  exact filter_by_simhash_subset sim 100 0.85 2 true posts p
    (filter_by_global_subset sim 100 0.85 true _ p hp)

/-- C9 amended: a second full dedup pass returns a subset of the first
pass's output (set inclusion); full set equality fails, see the
counterexample. -/
theorem C9_amended (sim : String → String → ℚ) (posts : List Post)
    (p : Post) (hp : p ∈ process_posts sim (process_posts sim posts)) :
    p ∈ process_posts sim posts :=
  process_posts_subset sim (process_posts sim posts) p hp

/-- A 120-character content body. -/
def c9Text : String := String.mk (List.replicate 120 'c')

/-- Eleven posts with identical text and pairwise distinct simhashes
(every pairwise TF-IDF cosine is 1). -/
def c9Posts : List Post :=
  [⟨"p0", "t", c9Text, "s0", none⟩, ⟨"p1", "t", c9Text, "s1", none⟩,
   ⟨"p2", "t", c9Text, "s2", none⟩, ⟨"p3", "t", c9Text, "s3", none⟩,
   ⟨"p4", "t", c9Text, "s4", none⟩, ⟨"p5", "t", c9Text, "s5", none⟩,
   ⟨"p6", "t", c9Text, "s6", none⟩, ⟨"p7", "t", c9Text, "s7", none⟩,
   ⟨"p8", "t", c9Text, "s8", none⟩, ⟨"p9", "t", c9Text, "s9", none⟩,
   ⟨"p10", "t", c9Text, "s10", none⟩]

/-- Cosine similarity consistent with any fitted TF-IDF vectorizer on
these inputs: only identical texts are ever compared, and a text's
cosine with itself is 1. -/
def c9Sim : String → String → ℚ := fun t u => if t = u then 1 else 0

set_option maxHeartbeats 4000000 in
set_option maxRecDepth 100000 in
/-- C9 counterexample: on eleven identical posts with distinct simhashes,
the first pass keeps ten posts (the `< 10` refill path re-adds the ten
longest inputs after similarity filtering left one), while the second
pass keeps only one; `p0` survives one pass but not two, so
`process_posts` is not idempotent up to set equality. -/
theorem C9_counterexample :
    (⟨"p0", "t", c9Text, "s0", none⟩ : Post) ∈ process_posts c9Sim c9Posts ∧
    (⟨"p0", "t", c9Text, "s0", none⟩ : Post) ∉
      process_posts c9Sim (process_posts c9Sim c9Posts) := by
  with_unfolding_all decide

theorem C9_amended_witness :
    (⟨"p9", "t", c9Text, "s9", none⟩ : Post) ∈ process_posts c9Sim c9Posts :=
  C9_amended c9Sim c9Posts _ (by
    set_option maxRecDepth 100000 in with_unfolding_all decide)

/-! ## Claim C7: the simhash fingerprint and Hamming distance
(`src/rss_manager.py` `_generate_simhash`,
`src/batch_manager.py` `get_simhash_distance`)

`_generate_simhash` is `hashlib.sha256(text.encode("utf-8")).hexdigest()`
(the source comment itself notes it is SHA-256 rather than a real
simhash); the library primitives are translated in full: UTF-8
encoding, FIPS 180-4 SHA-256, and the hex digest.
`get_simhash_distance` parses each stored string with `int(h, 16)` when
it contains `"0x"`, else `int(h)`, falling back on failure to
`int(binascii.hexlify(h.encode()), 16)` (the big-endian integer of the
string's bytes), then takes `bin(x1 ^ x2).count("1")`.  Python's
decimal-`int` grammar is modelled as "non-empty and all digits"; signed,
spaced or underscored numerals — impossible for digests — are not
modelled. -/

/-- Truncation to 32 bits. -/
def w32 (n : ℕ) : ℕ := n % 4294967296

/-- 32-bit right rotation. -/
def rotr32 (x n : ℕ) : ℕ := w32 ((x >>> n) ||| (x <<< (32 - n)))

/-- The SHA-256 round constants. -/
def sha256K : List ℕ :=
  [1116352408, 1899447441, 3049323471, 3921009573,
   961987163, 1508970993, 2453635748, 2870763221,
   3624381080, 310598401, 607225278, 1426881987,
   1925078388, 2162078206, 2614888103, 3248222580,
   3835390401, 4022224774, 264347078, 604807628,
   770255983, 1249150122, 1555081692, 1996064986,
   2554220882, 2821834349, 2952996808, 3210313671,
   3336571891, 3584528711, 113926993, 338241895,
   666307205, 773529912, 1294757372, 1396182291,
   1695183700, 1986661051, 2177026350, 2456956037,
   2730485921, 2820302411, 3259730800, 3345764771,
   3516065817, 3600352804, 4094571909, 275423344,
   430227734, 506948616, 659060556, 883997877,
   958139571, 1322822218, 1537002063, 1747873779,
   1955562222, 2024104815, 2227730452, 2361852424,
   2428436474, 2756734187, 3204031479, 3329325298]

/-- The SHA-256 initial hash state. -/
def sha256H0 : List ℕ :=
  [1779033703, 3144134277, 1013904242, 2773480762,
   1359893119, 2600822924, 528734635, 1541459225]

/-- UTF-8 encoding of one code point (`str.encode("utf-8")`). -/
def utf8EncodeChar (c : ℕ) : List ℕ :=
  if c < 0x80 then [c]
  else if c < 0x800 then
    [0xC0 ||| (c >>> 6), 0x80 ||| (c &&& 0x3F)]
  else if c < 0x10000 then
    [0xE0 ||| (c >>> 12), 0x80 ||| ((c >>> 6) &&& 0x3F),
     0x80 ||| (c &&& 0x3F)]
  else
    [0xF0 ||| (c >>> 18), 0x80 ||| ((c >>> 12) &&& 0x3F),
     0x80 ||| ((c >>> 6) &&& 0x3F), 0x80 ||| (c &&& 0x3F)]

/-- The UTF-8 bytes of a string. -/
def strUtf8 (s : String) : List ℕ :=
  s.data.flatMap (fun c => utf8EncodeChar c.toNat)

/-- SHA-256 message padding: `0x80`, zeros to 56 mod 64, then the bit
length as 8 big-endian bytes. -/
def sha256Pad (msg : List ℕ) : List ℕ :=
  let len := msg.length
  let padZeros := (120 - ((len + 1) % 64)) % 64
  msg ++ [0x80] ++ List.replicate padZeros 0 ++
    (List.range 8).map (fun i => ((8 * len) >>> (8 * (7 - i))) % 256)

/-- Split into 64-byte blocks (fuelled; the fuel bounds the number of
blocks). -/
def chunksFuel : ℕ → List ℕ → List (List ℕ)
  | 0, _ => []
  | fuel + 1, l =>
    if l.isEmpty then [] else l.take 64 :: chunksFuel fuel (l.drop 64)

/-- The 16 big-endian message words of a block. -/
def msgWords (block : List ℕ) : List ℕ :=
  (List.range 16).map (fun i =>
    (block.getD (4 * i) 0 <<< 24) ||| (block.getD (4 * i + 1) 0 <<< 16) |||
    (block.getD (4 * i + 2) 0 <<< 8) ||| block.getD (4 * i + 3) 0)

def smallSigma0 (x : ℕ) : ℕ := rotr32 x 7 ^^^ rotr32 x 18 ^^^ (x >>> 3)

def smallSigma1 (x : ℕ) : ℕ := rotr32 x 17 ^^^ rotr32 x 19 ^^^ (x >>> 10)

def bigSigma0 (x : ℕ) : ℕ := rotr32 x 2 ^^^ rotr32 x 13 ^^^ rotr32 x 22

def bigSigma1 (x : ℕ) : ℕ := rotr32 x 6 ^^^ rotr32 x 11 ^^^ rotr32 x 25

/-- Extend the message schedule from 16 to 64 words. -/
def extendSchedule : ℕ → List ℕ → List ℕ
  | 0, ws => ws
  | k + 1, ws =>
    let t := w32 (smallSigma1 (ws.getD (ws.length - 2) 0) +
      ws.getD (ws.length - 7) 0 +
      smallSigma0 (ws.getD (ws.length - 15) 0) +
      ws.getD (ws.length - 16) 0)
    extendSchedule k (ws ++ [t])

/-- One SHA-256 compression round on the state `[a,b,c,d,e,f,g,h]`. -/
def roundStep (st : List ℕ) (kw : ℕ × ℕ) : List ℕ :=
  match st with
  | [a, b, c, d, e, f, g, h] =>
    let ch := (e &&& f) ^^^ ((4294967295 ^^^ e) &&& g)
    let maj := (a &&& b) ^^^ (a &&& c) ^^^ (b &&& c)
    let t1 := w32 (h + bigSigma1 e + ch + kw.1 + kw.2)
    let t2 := w32 (bigSigma0 a + maj)
    [w32 (t1 + t2), a, b, c, w32 (d + t1), e, f, g]
  | _ => st

/-- Compress one 64-byte block into the hash state. -/
def compressBlock (H : List ℕ) (block : List ℕ) : List ℕ :=
  let ws := extendSchedule 48 (msgWords block)
  let st := (sha256K.zip ws).foldl roundStep H
  (H.zip st).map (fun p => w32 (p.1 + p.2))

/-- The eight 32-bit words of the SHA-256 digest of a byte string. -/
def sha256Words (msg : List ℕ) : List ℕ :=
  let padded := sha256Pad msg
  (chunksFuel padded.length padded).foldl compressBlock sha256H0

/-- The sixteen lowercase hex digits. -/
def hexDigits : List Char :=
  ['0', '1', '2', '3', '4'] ++ ['5', '6', '7', '8', '9'] ++
    ['a', 'b', 'c'] ++ ['d', 'e', 'f']

def nibbleChar (n : ℕ) : Char := hexDigits.getD (n % 16) '0'

/-- Eight hex characters of one 32-bit word, most significant first. -/
def word8Hex (w : ℕ) : List Char :=
  (List.range 8).map (fun k => nibbleChar ((w >>> (4 * (7 - k))) % 16))

/-- `hashlib.sha256(msg).hexdigest()`. -/
def sha256Hex (msg : List ℕ) : String :=
  String.mk ((sha256Words msg).flatMap word8Hex)

/-- FIPS 180-4 test vector, anchoring the translation of the library
primitive. -/
theorem sha256_abc_vector :
    sha256Hex (strUtf8 "abc")
      = "ba7816bf8f01cfea414140de5dae2223b00361a396177a9cb410ff61f20015ad" := by
  decide

/-- `_generate_simhash` of `src/rss_manager.py`: empty text yields `""`,
otherwise the SHA-256 hex digest of the UTF-8 encoded text. -/
def generate_simhash (text : String) : String :=
  if text = "" then "" else sha256Hex (strUtf8 text)

/-- Big-endian integer of a byte string
(`int(binascii.hexlify(b), 16)`). -/
def bytesToNat (l : List ℕ) : ℕ := l.foldl (fun acc b => acc * 256 + b) 0

/-- Value of a decimal digit string. -/
def decDigitsToNat (l : List Char) : ℕ :=
  l.foldl (fun acc c => acc * 10 + (c.toNat - 48)) 0

/-- Value of one hex digit character. -/
def hexDigitVal (c : Char) : ℕ :=
  if 97 ≤ c.toNat then c.toNat - 87
  else if 65 ≤ c.toNat then c.toNat - 55
  else c.toNat - 48

/-- Python's `pat in s` substring test. -/
def startsWithList (pat l : List Char) : Bool :=
  match pat, l with
  | [], _ => true
  | _ :: _, [] => false
  | p :: ps, x :: xs => p == x && startsWithList ps xs

def containsSub (pat : List Char) : List Char → Bool
  | [] => pat.isEmpty
  | x :: xs => startsWithList pat (x :: xs) || containsSub pat xs

/-- `int(h, 16)` for a string containing `"0x"`: only a well-formed
`0x`-prefixed hex numeral parses. -/
def parseHex0x (h : String) : Option ℕ :=
  match h.data with
  | '0' :: 'x' :: rest =>
    if rest ≠ [] ∧ rest.all (fun c =>
        c.isDigit || (decide ('a' ≤ c) && decide (c ≤ 'f')) ||
        (decide ('A' ≤ c) && decide (c ≤ 'F')))
    then some (rest.foldl (fun acc c => acc * 16 + hexDigitVal c) 0)
    else none
  | _ => none

/-- `int(binascii.hexlify(h.encode()), 16)`. -/
def hexlifyInt (h : String) : ℕ := bytesToNat (strUtf8 h)

/-- The string-to-integer conversion of `get_simhash_distance`:
hex parse when `"0x"` occurs, else decimal parse, with the
`binascii.hexlify` fallback on failure. -/
def parseSimhashInt (h : String) : ℕ :=
  if containsSub ("0x".data) h.data then
    match parseHex0x h with
    | some v => v
    | none => hexlifyInt h
  else if h ≠ "" ∧ h.data.all Char.isDigit then
    decDigitsToNat h.data
  else hexlifyInt h

/-- `bin(x).count("1")`, fuelled by the number itself (halving
terminates well before the fuel runs out). -/
def popcountAux : ℕ → ℕ → ℕ
  | 0, _ => 0
  | fuel + 1, n => if n = 0 then 0 else n % 2 + popcountAux fuel (n / 2)

def popcount (n : ℕ) : ℕ := popcountAux n n

/-- `get_simhash_distance` of `src/batch_manager.py`: parse both stored
hashes and count the one bits of their XOR. -/
def get_simhash_distance (h1 h2 : String) : ℕ :=
  popcount (parseSimhashInt h1 ^^^ parseSimhashInt h2)

/-- C7 counterexample: the stored fingerprint of a non-empty content is
a 64-hex-character (256-bit) SHA-256 digest, not a 64-bit value, and
the Hamming distance between the fingerprints of the contents `"a"` and
`"b"` exceeds 64 (both digests contain hex letters, so both fall to the
`hexlify` fallback, producing 512-bit integers). -/
theorem C7_counterexample :
    (generate_simhash "a").length = 64 ∧
    64 < get_simhash_distance (generate_simhash "a") (generate_simhash "b") := by
  decide

lemma popcountAux_le : ∀ (fuel k n : ℕ), n < 2 ^ k → popcountAux fuel n ≤ k := by
  intro fuel
  induction fuel with
  | zero => intro k n _; simp [popcountAux]
  | succ fuel ih =>
    intro k n h
    rw [popcountAux]
    by_cases hn : n = 0
    · simp [hn]
    · rw [if_neg hn]
      cases k with
      | zero => norm_num at h; omega
      | succ k =>
        have hp : (2 : ℕ) ^ (k + 1) = 2 ^ k * 2 := pow_succ 2 k
        have h2 : n / 2 < 2 ^ k := by omega
        have h3 := ih k (n / 2) h2
        omega

lemma foldl_base_lt (B : ℕ) (hB : 1 ≤ B) :
    ∀ (l : List ℕ) (acc : ℕ), (∀ b ∈ l, b < B) →
      l.foldl (fun acc b => acc * B + b) acc < (acc + 1) * B ^ l.length := by
  intro l
  induction l with
  | nil => intro acc _; simpa using Nat.lt_succ_self acc
  | cons b rest ih =>
    intro acc hb
    simp only [List.foldl_cons, List.length_cons]
    have h1 := ih (acc * B + b) (fun x hx => hb x (List.mem_cons_of_mem _ hx))
    have hb0 : b < B := hb b (List.mem_cons_self _ _)
    have h2 : acc * B + b + 1 ≤ (acc + 1) * B := by nlinarith
    refine lt_of_lt_of_le h1 ?_
    calc (acc * B + b + 1) * B ^ rest.length
        ≤ ((acc + 1) * B) * B ^ rest.length :=
          Nat.mul_le_mul_right _ h2
      _ = (acc + 1) * B ^ (rest.length + 1) := by ring

lemma bytesToNat_lt (l : List ℕ) (hb : ∀ b ∈ l, b < 256) :
    bytesToNat l < 256 ^ l.length := by
  have := foldl_base_lt 256 (by norm_num) l 0 hb
  simpa [bytesToNat] using this

lemma hexChar_toNat_lt (c : Char) (h : c ∈ hexDigits) : c.toNat < 128 := by
  fin_cases h <;> decide

lemma hexChar_ne_x (c : Char) (h : c ∈ hexDigits) : c ≠ 'x' := by
  fin_cases h <;> decide

/-- The 10-base digit fold is dominated by the 128-base fold on the
same digits. -/
lemma foldl_base10_le_base128 :
    ∀ (m : List ℕ) (acc : ℕ),
      m.foldl (fun acc d => acc * 10 + d) acc
        ≤ m.foldl (fun acc d => acc * 128 + d) acc := by
  intro m
  induction m with
  | nil => intro acc; exact le_refl _
  | cons d rest ihm =>
    intro acc
    simp only [List.foldl_cons]
    have hmono : ∀ (mp : List ℕ) (a b : ℕ), a ≤ b →
        mp.foldl (fun acc e => acc * 128 + e) a
          ≤ mp.foldl (fun acc e => acc * 128 + e) b := by
      intro mp
      induction mp with
      | nil => intro a b hab; exact hab
      | cons e t iht =>
        intro a b hab
        simp only [List.foldl_cons]
        exact iht _ _ (by nlinarith)
    exact le_trans (ihm _) (hmono rest _ _ (by nlinarith))

lemma decDigitsToNat_lt_of_hex (l : List Char)
    (hc : ∀ c ∈ l, c ∈ hexDigits) :
    decDigitsToNat l < 128 ^ l.length := by
  have heq : (l.map (fun c => c.toNat - 48)).foldl
      (fun acc d => acc * 10 + d) 0 = decDigitsToNat l := by
    rw [List.foldl_map (fun c : Char => c.toNat - 48)
      (fun acc d => acc * 10 + d)]
    rfl
  have hvals : ∀ b ∈ l.map (fun c => c.toNat - 48), b < 128 := by
    intro b hb
    rcases List.mem_map.mp hb with ⟨c, hcm, rfl⟩
    have := hexChar_toNat_lt c (hc c hcm)
    omega
  have hlen : (l.map (fun c => c.toNat - 48)).length = l.length :=
    List.length_map _ _
  rw [← heq, ← hlen]
  generalize l.map (fun c => c.toNat - 48) = m at hvals ⊢
  have h128 : (1 : ℕ) ≤ 128 := by norm_num
  have hbound := foldl_base_lt 128 h128 m 0 hvals
  refine lt_of_le_of_lt (foldl_base10_le_base128 m 0) ?_
  simpa using hbound

lemma roundStep_length (st : List ℕ) (kw : ℕ × ℕ) :
    (roundStep st kw).length = st.length := by
  rcases st with _ | ⟨a, _ | ⟨b, _ | ⟨c, _ | ⟨d, _ | ⟨e, _ | ⟨f, _ |
    ⟨g, _ | ⟨h, _ | ⟨i, t⟩⟩⟩⟩⟩⟩⟩⟩⟩ <;> simp [roundStep]

lemma foldl_roundStep_length (l : List (ℕ × ℕ)) :
    ∀ st : List ℕ, (l.foldl roundStep st).length = st.length := by
  induction l with
  | nil => intro st; rfl
  | cons kw rest ih =>
    intro st
    rw [List.foldl_cons, ih, roundStep_length]

lemma compressBlock_length (H block : List ℕ) (h : H.length = 8) :
    (compressBlock H block).length = 8 := by
  unfold compressBlock
  dsimp only
  rw [List.length_map, List.length_zip, foldl_roundStep_length, h]
  simp

lemma foldl_compress_length (blocks : List (List ℕ)) :
    ∀ H : List ℕ, H.length = 8 → (blocks.foldl compressBlock H).length = 8 := by
  induction blocks with
  | nil => intro H h; simpa using h
  | cons b rest ih =>
    intro H h
    rw [List.foldl_cons]
    exact ih _ (compressBlock_length H b h)

lemma sha256Words_length (msg : List ℕ) : (sha256Words msg).length = 8 := by
  unfold sha256Words
  exact foldl_compress_length _ sha256H0 rfl

lemma word8Hex_length (w : ℕ) : (word8Hex w).length = 8 := by
  simp [word8Hex]

lemma flatMap_const_length {α β : Type} (f : α → List β) (k : ℕ)
    (hf : ∀ a, (f a).length = k) :
    ∀ l : List α, (l.flatMap f).length = l.length * k := by
  intro l
  induction l with
  | nil => simp
  | cons a t ih =>
    simp only [List.flatMap_cons, List.length_append, List.length_cons, hf, ih]
    ring

lemma sha256Hex_length (msg : List ℕ) : (sha256Hex msg).length = 64 := by
  show ((sha256Words msg).flatMap word8Hex).length = 64
  rw [flatMap_const_length word8Hex 8 word8Hex_length, sha256Words_length]

lemma nibbleChar_mem (n : ℕ) : nibbleChar n ∈ hexDigits := by
  have h : n % 16 < 16 := Nat.mod_lt _ (by norm_num)
  unfold nibbleChar
  set m := n % 16 with hm
  interval_cases m <;> decide

lemma sha256Hex_chars (msg : List ℕ) :
    ∀ c ∈ (sha256Hex msg).data, c ∈ hexDigits := by
  intro c hc
  have hc' : c ∈ (sha256Words msg).flatMap word8Hex := hc
  rcases List.mem_flatMap.mp hc' with ⟨w, _, hcw⟩
  rcases List.mem_map.mp hcw with ⟨k, _, rfl⟩
  exact nibbleChar_mem _

lemma strUtf8_ascii (l : List Char) (h : ∀ c ∈ l, c.toNat < 128) :
    l.flatMap (fun c => utf8EncodeChar c.toNat) = l.map Char.toNat := by
  induction l with
  | nil => rfl
  | cons c t ih =>
    rw [List.flatMap_cons, List.map_cons]
    rw [show utf8EncodeChar c.toNat = [c.toNat] from
      by unfold utf8EncodeChar; rw [if_pos (h c (List.mem_cons_self _ _))]]
    rw [ih (fun x hx => h x (List.mem_cons_of_mem _ hx))]
    rfl

lemma startsWithList_subset :
    ∀ (pat l : List Char), startsWithList pat l = true → ∀ c ∈ pat, c ∈ l := by
  intro pat
  induction pat with
  | nil => intro l _ c hc; simp at hc
  | cons p ps ih =>
    intro l h c hc
    cases l with
    | nil => simp [startsWithList] at h
    | cons x xs =>
      rw [startsWithList, Bool.and_eq_true] at h
      rcases List.mem_cons.mp hc with rfl | hc'
      · exact List.mem_cons.mpr (Or.inl (eq_of_beq h.1))
      · exact List.mem_cons_of_mem _ (ih xs h.2 c hc')

lemma containsSub_subset :
    ∀ (l pat : List Char), containsSub pat l = true → ∀ c ∈ pat, c ∈ l := by
  intro l
  induction l with
  | nil =>
    intro pat h c hc
    rw [containsSub] at h
    cases pat with
    | nil => simp at hc
    | cons p ps => simp [List.isEmpty] at h
  | cons x xs ih =>
    intro pat h c hc
    rw [containsSub, Bool.or_eq_true] at h
    rcases h with h1 | h2
    · exact startsWithList_subset pat _ h1 c hc
    · exact List.mem_cons_of_mem _ (ih pat h2 c hc)

/-- Parsing a 64-character hex digest always yields an integer below
2^512: the digest never contains `"0x"`, an all-digits digest parses
decimally below 128^64, and otherwise the `hexlify` fallback yields the
big-endian integer of 64 ASCII bytes. -/
lemma parseSimhashInt_digest_lt (h : String) (hlen : h.length = 64)
    (hchars : ∀ c ∈ h.data, c ∈ hexDigits) :
    parseSimhashInt h < 2 ^ 512 := by
  have hdata : h.data.length = 64 := hlen
  have hnox : ¬ containsSub ("0x".data) h.data = true := by
    intro hcon
    have hx : 'x' ∈ h.data :=
      containsSub_subset h.data ("0x".data) hcon 'x' (by decide)
    exact hexChar_ne_x 'x' (hchars 'x' hx) rfl
  unfold parseSimhashInt
  rw [if_neg hnox]
  by_cases hdec : h ≠ "" ∧ h.data.all Char.isDigit
  · rw [if_pos hdec]
    have hb := decDigitsToNat_lt_of_hex h.data hchars
    rw [hdata] at hb
    refine lt_of_lt_of_le hb ?_
    calc (128 : ℕ) ^ 64 = (2 ^ 7) ^ 64 := by norm_num
      _ = 2 ^ 448 := by rw [← pow_mul]
      _ ≤ 2 ^ 512 := Nat.pow_le_pow_right (by norm_num) (by norm_num)
  · rw [if_neg hdec]
    unfold hexlifyInt
    have hascii : ∀ c ∈ h.data, c.toNat < 128 :=
      fun c hc => hexChar_toNat_lt c (hchars c hc)
    have heq : strUtf8 h = h.data.map Char.toNat := strUtf8_ascii h.data hascii
    have hby : ∀ b ∈ strUtf8 h, b < 256 := by
      rw [heq]
      intro b hb
      rcases List.mem_map.mp hb with ⟨c, hc, rfl⟩
      exact lt_trans (hascii c hc) (by norm_num)
    have hlen2 : (strUtf8 h).length = 64 := by
      rw [heq, List.length_map, hdata]
    have hb := bytesToNat_lt (strUtf8 h) hby
    rw [hlen2] at hb
    have he : (256 : ℕ) ^ 64 = 2 ^ 512 := by
      calc (256 : ℕ) ^ 64 = (2 ^ 8) ^ 64 := by norm_num
        _ = 2 ^ 512 := by rw [← pow_mul]
    rw [he] at hb
    exact hb

lemma parseSimhash_gen_lt (t : String) :
    parseSimhashInt (generate_simhash t) < 2 ^ 512 := by
  by_cases ht : t = ""
  · rw [ht]
    have h0 : parseSimhashInt (generate_simhash "") = 0 := rfl
    rw [h0]
    positivity
  · unfold generate_simhash
    rw [if_neg ht]
    exact parseSimhashInt_digest_lt _ (sha256Hex_length _) (sha256Hex_chars _)

/-- C7 amended: the stored fingerprint is the 256-bit SHA-256 hex digest
of the content (64 hex characters), and the Hamming distance
`get_simhash_distance` computes between two such stored values is at
most 512 (the bit width of the parsed integers), not 64. -/
theorem C7_amended (t1 t2 : String) :
    get_simhash_distance (generate_simhash t1) (generate_simhash t2) ≤ 512 ∧
    (t1 ≠ "" → (generate_simhash t1).length = 64) := by
  constructor
  · unfold get_simhash_distance popcount
    exact popcountAux_le _ 512 _
      (Nat.xor_lt_two_pow (parseSimhash_gen_lt t1) (parseSimhash_gen_lt t2))
  · intro ht
    unfold generate_simhash
    rw [if_neg ht]
    exact sha256Hex_length _

theorem C7_amended_witness :
    get_simhash_distance (generate_simhash "a") (generate_simhash "b") ≤ 512 ∧
    (generate_simhash "a").length = 64 :=
  ⟨(C7_amended "a" "b").1, (C7_amended "a" "b").2 (by decide)⟩

end InsightFlow
